import Mathlib

/-!
Verification of the declaration-file extraction engine (`src/parse.ts`) of the
readmi repository, as a shallow embedding in Lean 4.

Conventions of the embedding:
  * TypeScript AST nodes are modelled as inductive values carrying exactly the
    data the extraction code reads from them.  Everything the code obtains from
    the type checker (rendered type strings, alias symbols, resolved literal
    values of enum initializers) is attached to the node as data, since the
    checker is an external oracle from the extractor's point of view.
  * `undefined`/`null` become `Option.none`; JS truthiness tests are translated
    at each use site (in particular an empty string is falsy, an empty array is
    truthy).
  * JS string primitives (`startsWith`, one-shot `replace`, `trim`, the
    `@property` regex) are implemented over `List Char`.
-/

/-! ### JS string primitives -/

/-- Whitespace, as matched by the regex class backslash-s and by `String.trim`
in JS (restricted to the common ASCII whitespace characters). -/
def jsIsSpace (c : Char) : Bool :=
  c = ' ' || c = '\t' || c = '\n' || c = '\r' || c = '\x0b' || c = '\x0c'

/-- JS `String.prototype.startsWith`. -/
def jsStartsWith (s p : String) : Bool :=
  p.data.isPrefixOf s.data

/-- Remove the first occurrence of `pat` from `s` (empty pattern: nothing is
removed, matching JS `s.replace(pat, '')` which would insert at index 0). -/
def removeFirstSub (pat : List Char) : List Char → List Char
  | [] => []
  | c :: cs =>
    if pat.isPrefixOf (c :: cs) then (c :: cs).drop pat.length
    else c :: removeFirstSub pat cs

/-- JS `s.replace(pat, '')` with a plain-string pattern: removes only the
first occurrence. -/
def jsReplaceFirst (s pat : String) : String :=
  ⟨removeFirstSub pat.data s.data⟩

/-- JS `String.prototype.trim`. -/
def jsTrim (s : String) : String :=
  ⟨((s.data.dropWhile jsIsSpace).reverse.dropWhile jsIsSpace).reverse⟩

/-- JS `x || undefined` on an optional string: the empty string is falsy and
collapses to `undefined`. -/
def jsOrUndefined : Option String → Option String
  | some "" => none
  | x => x

/-! ### JSDoc input model (what `ts` hands to the extractor) -/

/-- The body of a JSDoc comment (`ts.JSDocTag['comment']`): either a plain
string or an array of comment parts, each contributing its `.text`.  A missing
body (`undefined`) is `Option.none` at use sites. -/
inductive CommentBody where
  | str (s : String)
  | parts (ps : List String)
deriving Repr, DecidableEq

/-- One raw JSDoc tag as delivered by `ts.getJSDocTags`: its tag name, its
comment body, and — for tags that `ts` parses structurally — the documented
name (`(tag as any).name?.text`) and the written type text
(`(tag as any).typeExpression?.type?.getText()`). -/
structure RawTag where
  tagName : String
  comment : Option CommentBody
  name : Option String
  typeText : Option String
deriving Repr, DecidableEq

/-- The JSDoc-relevant view of a node: the comment body of
`ts.getJSDocCommentsAndTags(node)[0]`, plus `ts.getJSDocTags(node)`. -/
structure JSDocSource where
  firstComment : Option CommentBody
  tags : List RawTag
deriving Repr, DecidableEq

/-! ### JSDoc output model (`JSDocTag`, `JSDocInfo` of `src/types`) -/

/-- An extracted documentation tag. -/
structure JSDocTag where
  tagName : String
  comment : Option String
  name : Option String
  literal : Option String
deriving Repr, DecidableEq

/-- An extracted documentation record. -/
structure JSDocInfo where
  description : Option (List String)
  tags : Option (List JSDocTag)
deriving Repr, DecidableEq

/-- The three optional structured fields contributed by
`extractJsDocTagDetail` (spread into a `JSDocTag` next to `tagName`). -/
structure TagDetail where
  comment : Option String := none
  name : Option String := none
  literal : Option String := none
deriving Repr, DecidableEq

/-! ### extractComment -/

/-- `extractComment(comment)`: a plain string is taken as is, an array of parts
is joined with a single space; a leading `"- "` is then removed (via the
one-shot `replace`); any other body shape yields `undefined`. -/
def extractComment : Option CommentBody → Option String
  | none => none
  | some b =>
    let commentText : String :=
      match b with
      | .str s => s
      | .parts ps => String.intercalate " " ps
    if jsStartsWith commentText "- " then some (jsReplaceFirst commentText "- ")
    else some commentText

/-! ### The @property comment regex -/

/-- The character `{` (kept out of string literals). -/
def lbrace : Char := Char.ofNat 123

/-- The character `}`. -/
def rbrace : Char := Char.ofNat 125

/-- Backtracking helper: try handing `k` the splits `(cs.take n, cs.drop n)`
for `n = hi, hi-1, …, 1`, returning the first success. -/
def tryLengths (cs : List Char) (k : List Char → List Char → Option α) : Nat → Option α
  | 0 => none
  | n + 1 =>
    match k (cs.take (n + 1)) (cs.drop (n + 1)) with
    | some r => some r
    | none => tryLengths cs k n

/-- Greedy, backtracking match of a one-or-more repetition of characters
satisfying `p` (regex `+`): the longest run is tried first. -/
def matchPlus (p : Char → Bool) (cs : List Char) (k : List Char → List Char → Option α) :
    Option α :=
  tryLengths cs k (cs.takeWhile p).length

/-- The regex applied by `extractJsDocTagDetailProperty` to a `@property`
comment — an open brace, a non-space run (group 1, the type), a close brace,
spaces, a non-space run (group 2, the name), spaces, a dash, spaces, and the
rest of the line (group 3, the description; the dot does not cross line
terminators and the anchor is the end of the string).  Implemented with the
same leftmost-greedy backtracking the JS engine uses. -/
def matchPropertyPattern (s : String) : Option (String × String × String) :=
  match s.data with
  | [] => none
  | c :: rest =>
    if c = lbrace then
      matchPlus (fun ch => !jsIsSpace ch) rest (fun g1 r1 =>
        match r1 with
        | [] => none
        | c1 :: r2 =>
          if c1 = rbrace then
            matchPlus jsIsSpace r2 (fun _ r3 =>
              matchPlus (fun ch => !jsIsSpace ch) r3 (fun g2 r4 =>
                matchPlus jsIsSpace r4 (fun _ r5 =>
                  match r5 with
                  | '-' :: r6 =>
                    matchPlus jsIsSpace r6 (fun _ r7 =>
                      if r7.all (fun ch => ch ≠ '\n' && ch ≠ '\r') then
                        some (⟨g1⟩, ⟨g2⟩, ⟨r7⟩)
                      else none)
                  | _ => none)))
          else none)
    else none

/-! ### Tag details -/

/-- `extractJsDocTagDetailProperty`: destructure a `@property` comment that
matches the pattern into `literal`/`name`/`comment` (the description is
whitespace-trimmed); a non-matching or absent comment contributes nothing. -/
def extractJsDocTagDetailProperty (tag : RawTag) : TagDetail :=
  match extractComment tag.comment with
  | some s =>
    match matchPropertyPattern s with
    | some (lit, nm, description) =>
      { comment := some (jsTrim description), name := some nm, literal := some lit }
    | none => {}
  | none => {}

/-- `extractJsDocTagDetail`: `@property` tags get the special destructuring;
every other tag carries its cleaned comment, parsed name and written type text,
each collapsed to `undefined` when empty. -/
def extractJsDocTagDetail (tag : RawTag) : TagDetail :=
  if tag.tagName = "property" then
    extractJsDocTagDetailProperty tag
  else
    { comment := jsOrUndefined (extractComment tag.comment),
      name := jsOrUndefined tag.name,
      literal := jsOrUndefined tag.typeText }

/-- One entry of the `tags` array built in `extractJsDoc`: the raw tag's name
next to the spread tag detail. -/
def jsDocTagOf (tag : RawTag) : JSDocTag :=
  let d := extractJsDocTagDetail tag
  { tagName := tag.tagName, comment := d.comment, name := d.name, literal := d.literal }

/-! ### extractJsDoc and mergeJsDoc -/

/-- `extractJsDoc(node)`: the first comment becomes a one-element
`description` when it has content (`comment ? [comment] : undefined` — an
empty string is falsy), each raw tag becomes one `JSDocTag`; when there is
neither a description nor any tag the result is absent, and the `tags` field
is only populated when the tag list is non-empty. -/
def extractJsDoc (node : JSDocSource) : Option JSDocInfo :=
  let comment := extractComment node.firstComment
  let description : Option (List String) :=
    match comment with
    | some c => if c = "" then none else some [c]
    | none => none
  let tags := node.tags.map jsDocTagOf
  if description.isNone && tags.isEmpty then none
  else some { description := description, tags := if tags.isEmpty then none else some tags }

/-- `mergeJsDoc(inlinedJsDoc, propertyJsDocTags)`: the comments of the handed
parent-level tags (re-cleaned through `extractComment`, dropping the absent
ones) are listed before the inline description; the merged `tags` field is
exactly the inline `tags` field; the result is absent when the inline record
contributes no tags array and there is no description at all. -/
def mergeJsDoc (inlinedJsDoc : Option JSDocInfo) (propertyJsDocTags : Option (List JSDocTag)) :
    Option JSDocInfo :=
  let externalDescriptions : List String :=
    match propertyJsDocTags with
    | some ts =>
      if ts.length > 0 then
        ts.filterMap (fun propTag => extractComment (propTag.comment.map CommentBody.str))
      else []
    | none => []
  let inlineDescriptions := (inlinedJsDoc.bind JSDocInfo.description).getD []
  let descriptions := externalDescriptions ++ inlineDescriptions
  if (inlinedJsDoc.bind JSDocInfo.tags).isNone && descriptions.isEmpty then none
  else
    some { description := if descriptions.isEmpty then none else some descriptions,
           tags := inlinedJsDoc.bind JSDocInfo.tags }

/-! ### Generic type parameters -/

/-- An extracted generic declaration (`GenericDeclaration` of `src/types`);
`extendsType` renders the source's `extends` field. -/
structure GenericDecl where
  name : String
  extendsType : Option String
  defaultValue : Option String
deriving Repr, DecidableEq

/-- One `typeParameters` entry of a syntax node, with the checker's rendering
(`checker.typeToString(checker.getTypeFromTypeNode(..))`) of its optional
constraint and default already attached. -/
structure TypeParamDecl where
  name : String
  constraintText : Option String
  defaultText : Option String
deriving Repr, DecidableEq

/-- `extractGenerics` for a node of one of the four accepted kinds: map the
`typeParameters`, yielding `undefined` when there are none.  (For any other
node kind `extractGenerics` returns `undefined` before reading anything.) -/
def genericsOf (typeParams : List TypeParamDecl) : Option (List GenericDecl) :=
  let generics := typeParams.map (fun p => GenericDecl.mk p.name p.constraintText p.defaultText)
  if generics.isEmpty then none else some generics

/-! ### Type-expression nodes (the input of extractTypeAnnotation) -/

mutual

/-- A `ts.TypeNode`, restricted to the data `extractTypeAnnotation` reads.
Each `literal` field carries the checker's rendering
`checker.typeToString(checker.getTypeAtLocation(typeNode))` of that node.
A reference node carries the alias symbol's name when
`checker.getTypeAtLocation(typeRef).aliasSymbol` exists, the written
`typeName` text, and the optional explicit `typeArguments`.  `otherNode`
covers every syntax kind outside the six handled cases (primitives, literal
types, keywords, anything unrecognized). -/
inductive TypeNode where
  | typeLiteralNode (literal : String) (members : List MemberNode)
  | functionTypeNode (literal : String) (params : List ParamNode) (returnTypeNode : TypeNode)
      (typeParams : List TypeParamDecl)
  | typeReferenceNode (aliasSymbolName : Option String) (typeNameText : String)
      (typeArgs : Option (List TypeNode))
  | tupleNode (literal : String) (elements : List TypeNode)
  | intersectionNode (literal : String) (types : List TypeNode)
  | unionNode (literal : String) (types : List TypeNode)
  | otherNode (literal : String)

/-- A `ts.TypeElement` member of a type literal: its optional name text, its
optional written type, and its JSDoc view. -/
inductive MemberNode where
  | mk (name : Option String) (typeNode : Option TypeNode) (jsdoc : JSDocSource)

/-- A `ts.ParameterDeclaration`: name text, JSDoc view, optional written
type. -/
inductive ParamNode where
  | mk (name : String) (jsdoc : JSDocSource) (typeNode : Option TypeNode)

end

def MemberNode.name : MemberNode → Option String
  | .mk n _ _ => n

def MemberNode.typeNode : MemberNode → Option TypeNode
  | .mk _ t _ => t

def MemberNode.jsdoc : MemberNode → JSDocSource
  | .mk _ _ j => j

def ParamNode.name : ParamNode → String
  | .mk n _ _ => n

/-! ### Extracted type annotations (the TypeAnnotation union of `src/types`) -/

mutual

/-- The closed `TypeAnnotation` sum produced by `extractTypeAnnotation`. -/
inductive TypeAnnot where
  | typeLiteral (generics : Option (List GenericDecl)) (literal : String)
      (members : List TypeLiteralMember)
  | functionType (literal : String) (parameters : List Parameter) (returnType : TypeAnnot)
      (generics : Option (List GenericDecl))
  | typeReference (name : String) (parameters : Option (List TypeAnnot))
  | tuple (literal : String) (types : List TypeAnnot)
  | intersection (literal : String) (types : List TypeAnnot)
  | union (literal : String) (types : List TypeAnnot)
  | primitiveType (literal : String)

/-- An extracted type-literal member. -/
inductive TypeLiteralMember where
  | mk (name : String) (typeAnnot : Option TypeAnnot) (jsdoc : Option JSDocInfo)

/-- An extracted parameter. -/
inductive Parameter where
  | mk (name : String) (jsdoc : Option JSDocInfo) (typeAnnot : Option TypeAnnot)

end

def TypeLiteralMember.name : TypeLiteralMember → String
  | .mk n _ _ => n

def TypeLiteralMember.typeAnnot : TypeLiteralMember → Option TypeAnnot
  | .mk _ t _ => t

def TypeLiteralMember.jsdoc : TypeLiteralMember → Option JSDocInfo
  | .mk _ _ j => j

def Parameter.name : Parameter → String
  | .mk n _ _ => n

/-- The members of a `typeLiteral` annotation (empty for every other
variant). -/
def TypeAnnot.membersOf : TypeAnnot → List TypeLiteralMember
  | .typeLiteral _ _ ms => ms
  | _ => []

/-- The constituent list of a `tuple`/`intersection`/`union` annotation
(empty for every other variant). -/
def TypeAnnot.typesOf : TypeAnnot → List TypeAnnot
  | .tuple _ ts => ts
  | .intersection _ ts => ts
  | .union _ ts => ts
  | _ => []

/-! ### extractTypeAnnotation and friends -/

/-- The per-member filter applied inside the type-literal case:
`jsDocTags?.filter(tag => tag.name === member.name?.getText())` — strict
equality on two possibly-undefined strings. -/
def filterTagsFor (jsDocTags : Option (List JSDocTag)) (member : MemberNode) :
    Option (List JSDocTag) :=
  jsDocTags.map (fun ts => ts.filter (fun tag => tag.name == member.name))

mutual

/-- `extractTypeAnnotation(typeNode, checker, jsDocTags)`: structural dispatch
on the node kind.  A type literal maps its members (handing each the tags
filtered to its name); `extractGenerics` yields `undefined` for a type-literal
node, so that variant's `generics` is always absent.  A function type maps its
parameters and recurses into the return type.  A reference emits the alias
symbol's name when the checker reports one and the written name otherwise,
recursing only into explicit type arguments.  Tuples, intersections and unions
recurse elementwise in written order.  Everything else collapses to a
primitive rendering. -/
def extractTypeAnnot (typeNode : TypeNode) (jsDocTags : Option (List JSDocTag)) : TypeAnnot :=
  match typeNode with
  | .typeLiteralNode lit ms =>
    .typeLiteral none lit (extractTypeLiteralMembers ms jsDocTags)
  | .functionTypeNode lit ps ret tps =>
    .functionType lit (extractParameters ps) (extractTypeAnnot ret none) (genericsOf tps)
  | .typeReferenceNode aliasName refName args =>
    .typeReference
      (match aliasName with
       | some n => n
       | none => refName)
      (extractTypeArgs args)
  | .tupleNode lit es => .tuple lit (extractTypeAnnotList es)
  | .intersectionNode lit ts => .intersection lit (extractTypeAnnotList ts)
  | .unionNode lit ts => .union lit (extractTypeAnnotList ts)
  | .otherNode lit => .primitiveType lit

/-- The member map of the type-literal case, in source member order. -/
def extractTypeLiteralMembers (ms : List MemberNode) (jsDocTags : Option (List JSDocTag)) :
    List TypeLiteralMember :=
  match ms with
  | [] => []
  | m :: rest =>
    extractTypeLiteralMember m (filterTagsFor jsDocTags m)
      :: extractTypeLiteralMembers rest jsDocTags

/-- `extractTypeLiteralMember(member, checker, jsDocTags)`: the inline JSDoc is
merged with the handed tags, the member's written type (if any) is resolved
with no tag set, and a syntactically missing name becomes the empty string
(`member.name?.getText() || ''`). -/
def extractTypeLiteralMember (member : MemberNode) (jsDocTags : Option (List JSDocTag)) :
    TypeLiteralMember :=
  match member with
  | .mk nameOpt typeNodeOpt jsdocSrc =>
    let inlinedJsDoc := extractJsDoc jsdocSrc
    let jsdoc := mergeJsDoc inlinedJsDoc jsDocTags
    let t : Option TypeAnnot :=
      match typeNodeOpt with
      | some tn => some (extractTypeAnnot tn none)
      | none => none
    .mk (nameOpt.getD "") t jsdoc

/-- The parameter map of function declarations and function types. -/
def extractParameters (ps : List ParamNode) : List Parameter :=
  match ps with
  | [] => []
  | p :: rest => extractParameter p :: extractParameters rest

/-- `extractParameter(param, checker)`: name, inline JSDoc, and the written
type resolved with an empty tag set. -/
def extractParameter (param : ParamNode) : Parameter :=
  match param with
  | .mk nm jd t =>
    .mk nm (extractJsDoc jd)
      (match t with
       | some tn => some (extractTypeAnnot tn (some []))
       | none => none)

/-- The optional `typeArguments` map of the reference case. -/
def extractTypeArgs : Option (List TypeNode) → Option (List TypeAnnot)
  | none => none
  | some args => some (extractTypeAnnotList args)

/-- Elementwise resolution (no tag set) for tuple/intersection/union
constituents and type arguments, in written order. -/
def extractTypeAnnotList : List TypeNode → List TypeAnnot
  | [] => []
  | t :: ts => extractTypeAnnot t none :: extractTypeAnnotList ts

end

/-! ### Enum extraction -/

/-- A literal constant value carried by a checker type (`type.value` of a
number- or string-literal type). -/
inductive EnumVal where
  | num (n : Int)
  | str (s : String)
deriving Repr, DecidableEq

/-- JS `typeof` applied to the optional literal value read off the checker
type (`typeof enumValue?.value`): `undefined` when there is no value. -/
def typeofEnumValue : Option EnumVal → String
  | none => "undefined"
  | some (.num _) => "number"
  | some (.str _) => "string"

/-- One `ts.EnumMember`: `initializer` is `none` when the member has no
initializer (the code then never consults the checker and `enumValue` is
`null`); `some v` models `checker.getTypeAtLocation(initializer)` with `v` the
type's literal `value` when it has one. -/
structure EnumMemberNode where
  name : String
  jsdoc : JSDocSource
  initializer : Option (Option EnumVal)
deriving Repr, DecidableEq

/-- An extracted enum member (`EnumMember` of `src/types`). -/
structure EnumMemberOut where
  name : String
  jsdoc : Option JSDocInfo
  value : Option EnumVal
  typeAnnot : TypeAnnot

/-- The member map inside `extractEnum`: `value` is the literal value of the
initializer's checker type (absent without an initializer), and the primitive
`typeAnnotation` records `typeof` of that value. -/
def extractEnumMember (member : EnumMemberNode) : EnumMemberOut :=
  let enumValue : Option EnumVal :=
    match member.initializer with
    | some v => v
    | none => none
  { name := member.name
    jsdoc := extractJsDoc member.jsdoc
    value := enumValue
    typeAnnot := .primitiveType (typeofEnumValue enumValue) }

/-- A `ts.EnumDeclaration`. -/
structure EnumDeclNode where
  name : String
  jsdoc : JSDocSource
  members : List EnumMemberNode
deriving Repr, DecidableEq

/-- An extracted enum element. -/
structure EnumElement where
  name : String
  jsdoc : Option JSDocInfo
  members : List EnumMemberOut

/-- `extractEnum(enumDecl, checker)`. -/
def extractEnum (enumDecl : EnumDeclNode) : EnumElement :=
  { name := enumDecl.name
    jsdoc := extractJsDoc enumDecl.jsdoc
    members := enumDecl.members.map extractEnumMember }

/-! ### Variable extraction -/

/-- One `ts.VariableDeclaration`: its name text, its optional written type,
and the printer's rendering of the whole declaration
(`printer.printNode(EmitHint.Unspecified, declaration, sourceFile)`). -/
structure VarDeclNode where
  name : String
  typeNode : Option TypeNode
  printedText : String

/-- A `ts.VariableStatement`: the statement-level JSDoc view shared by every
declaration in the list, plus the declarations. -/
structure VariableStatementNode where
  jsdoc : JSDocSource
  declarations : List VarDeclNode

/-- An extracted variable element. -/
structure VariableElement where
  name : String
  jsdoc : Option JSDocInfo
  literal : Option String
  typeAnnot : Option TypeAnnot

/-- `extractVariables(statement, checker)`: one element per declaration, all
sharing the statement's JSDoc; `literal` (the printed text with the first
`"export type "` removed) and `typeAnnotation` (resolved with the statement
JSDoc's tags) are only populated when a type was written. -/
def extractVariables (statement : VariableStatementNode) : List VariableElement :=
  let jsdoc := extractJsDoc statement.jsdoc
  statement.declarations.map (fun declaration =>
    { name := declaration.name
      jsdoc := jsdoc
      literal :=
        match declaration.typeNode with
        | some _ => some (jsReplaceFirst declaration.printedText "export type ")
        | none => none
      typeAnnot :=
        match declaration.typeNode with
        | some t => some (extractTypeAnnot t (jsdoc.bind JSDocInfo.tags))
        | none => none })

/-! ### Function extraction -/

/-- A `ts.FunctionDeclaration`. -/
structure FunctionDeclNode where
  name : Option String
  params : List ParamNode
  returnTypeNode : Option TypeNode
  typeParams : List TypeParamDecl
  jsdoc : JSDocSource

/-- An extracted function element. -/
structure FunctionElement where
  name : String
  parameters : List Parameter
  returnType : Option TypeAnnot
  generics : Option (List GenericDecl)
  jsdoc : Option JSDocInfo

/-- `extractFunction(func, checker)`: a missing identifier yields the name
`"anonymous"`; the return type (when written) is resolved with no tag set. -/
def extractFunction (func : FunctionDeclNode) : FunctionElement :=
  { name := func.name.getD "anonymous"
    parameters := extractParameters func.params
    returnType :=
      match func.returnTypeNode with
      | some t => some (extractTypeAnnot t none)
      | none => none
    generics := genericsOf func.typeParams
    jsdoc := extractJsDoc func.jsdoc }

/-! ### Class extraction -/

/-- The modifier keywords `extractClass`/`getAccessModifier` inspect. -/
inductive ModifierKind where
  | privateKeyword
  | protectedKeyword
  | publicKeyword
  | abstractKeyword
  | otherModifier
deriving Repr, DecidableEq

/-- A `ts.ClassElement`: the structural category flags, whether the name is a
language-native `#private` identifier, the modifier list, the name text, the
JSDoc view, the parameter list (read for constructors and methods), and the
checker's rendering of the member's type (the code calls
`extractTypeAnnotation` on the member node itself, whose syntax kind always
falls into the primitive default case). -/
structure ClassMemberNode where
  isProperty : Bool
  isMethod : Bool
  isConstructorDecl : Bool
  hasPrivateIdentifierName : Bool
  modifiers : List ModifierKind
  name : Option String
  jsdoc : JSDocSource
  params : List ParamNode
  checkerTypeText : String

/-- An extracted class member. -/
structure ClassMember where
  kind : String
  name : Option String
  jsdoc : Option JSDocInfo
  typeAnnot : TypeAnnot
  parameters : Option (List Parameter)
  accessModifier : Option String

/-- `getAccessModifier(member)`: the first explicit access keyword wins, in
the order private, protected, public; none means implicitly public. -/
def getAccessModifier (modifiers : List ModifierKind) : Option String :=
  if modifiers.contains .privateKeyword then some "private"
  else if modifiers.contains .protectedKeyword then some "protected"
  else if modifiers.contains .publicKeyword then some "public"
  else none

/-- `extractClassMember(member, checker)`: a property named by a `#private`
identifier yields `null` (later filtered out); otherwise the category string,
merged data and (for constructors and methods) the parameters. -/
def extractClassMember (member : ClassMemberNode) : Option ClassMember :=
  if member.isProperty && member.hasPrivateIdentifierName then none
  else
    some
      { kind :=
          if member.isProperty then "Property"
          else if member.isMethod then "Method"
          else "Constructor"
        name := member.name
        jsdoc := extractJsDoc member.jsdoc
        typeAnnot := extractTypeAnnot (.otherNode member.checkerTypeText) none
        parameters :=
          if member.isConstructorDecl || member.isMethod then
            some (extractParameters member.params)
          else none
        accessModifier := getAccessModifier member.modifiers }

/-- A `ts.ClassDeclaration`: `extendsClauseTypes` is `some` when an `extends`
heritage clause exists and lists the `expression.getText()` of its types. -/
structure ClassDeclNode where
  name : Option String
  extendsClauseTypes : Option (List String)
  modifiers : List ModifierKind
  members : List ClassMemberNode
  jsdoc : JSDocSource

/-- An extracted class element; `extendsName` renders the source's `extends`
field. -/
structure ClassElement where
  name : String
  isAbstract : Bool
  extendsName : Option String
  members : List ClassMember
  jsdoc : Option JSDocInfo

/-- `extractClass(cls, checker)`: records the first type of a non-empty
`extends` clause, the abstract flag, and the non-private members. -/
def extractClass (cls : ClassDeclNode) : ClassElement :=
  let extendsName : Option String :=
    match cls.extendsClauseTypes with
    | some (t :: _) => some t
    | _ => none
  { name := cls.name.getD "anonymous"
    isAbstract := cls.modifiers.contains .abstractKeyword
    extendsName := extendsName
    members := cls.members.filterMap extractClassMember
    jsdoc := extractJsDoc cls.jsdoc }

/-! ### Type-alias extraction -/

/-- A `ts.TypeAliasDeclaration` with the printer's rendering of the whole
alias attached. -/
structure TypeAliasDeclNode where
  name : String
  jsdoc : JSDocSource
  typeParams : List TypeParamDecl
  typeNode : Option TypeNode
  printedText : String

/-- An extracted type-alias element. -/
structure TypeAliasElement where
  name : String
  jsdoc : Option JSDocInfo
  generics : Option (List GenericDecl)
  typeAnnot : Option TypeAnnot
  literal : String

/-- `extractTypeAlias(alias, checker)`: the aliased type is resolved seeded
with an empty tag array; `literal` is the printed alias with the first
`"export type "` removed. -/
def extractTypeAlias (aliasDecl : TypeAliasDeclNode) : TypeAliasElement :=
  { name := aliasDecl.name
    jsdoc := extractJsDoc aliasDecl.jsdoc
    generics := genericsOf aliasDecl.typeParams
    typeAnnot :=
      match aliasDecl.typeNode with
      | some t => some (extractTypeAnnot t (some []))
      | none => none
    literal := jsReplaceFirst aliasDecl.printedText "export type " }

/-! ### Driver -/

/-- A top-level child of the source file, as dispatched by `extractNode`'s
switch on `node.kind`; `otherTop` covers every kind outside the five handled
declaration categories (its payload is the raw syntax-kind code). -/
inductive TopNode where
  | variableStatement (s : VariableStatementNode)
  | functionDeclaration (f : FunctionDeclNode)
  | classDeclaration (c : ClassDeclNode)
  | enumDeclaration (e : EnumDeclNode)
  | typeAliasDeclaration (a : TypeAliasDeclNode)
  | otherTop (kind : Nat)

/-- The `TypeElement` union collected by the driver. -/
inductive TypeElement where
  | variableElement (v : VariableElement)
  | functionElement (f : FunctionElement)
  | classElement (c : ClassElement)
  | enumElement (e : EnumElement)
  | typeAliasElement (a : TypeAliasElement)

/-- The `name` common field of an extracted element. -/
def TypeElement.name : TypeElement → String
  | .variableElement v => v.name
  | .functionElement f => f.name
  | .classElement c => c.name
  | .enumElement e => e.name
  | .typeAliasElement a => a.name

/-- `extractNode(node, checker)`: dispatch to the matching extractor; an
unrecognized kind contributes no elements. -/
def extractNode : TopNode → List TypeElement
  | .variableStatement s => (extractVariables s).map .variableElement
  | .functionDeclaration f => [.functionElement (extractFunction f)]
  | .classDeclaration c => [.classElement (extractClass c)]
  | .enumDeclaration e => [.enumElement (extractEnum e)]
  | .typeAliasDeclaration a => [.typeAliasElement (extractTypeAlias a)]
  | .otherTop _ => []

/-- A loaded source file: its top-level children in source order. -/
structure SourceFileNode where
  topNodes : List TopNode

/-- The observable outcome of `parseDeclarationFile`: whether the failure
path logged to the operator (`console.error`), and the returned elements. -/
structure ParseOutcome where
  errorReported : Bool
  elements : List TypeElement

/-- `parseDeclarationFile(filePath)`: `none` models
`program.getSourceFile(filePath)` yielding no loadable source file, upon
which the failure is reported and the empty sequence returned; otherwise
every top-level child is dispatched and the results are concatenated in
source order (`ts.forEachChild` + `push(...)`). -/
def parseDeclarationFile (sourceFile : Option SourceFileNode) : ParseOutcome :=
  match sourceFile with
  | none => { errorReported := true, elements := [] }
  | some sf => { errorReported := false, elements := sf.topNodes.flatMap extractNode }

/-- The source-side names a top-level node declares, one per element the
matching extractor will emit. -/
def TopNode.declaredNames : TopNode → List String
  | .variableStatement s => s.declarations.map VarDeclNode.name
  | .functionDeclaration f => [f.name.getD "anonymous"]
  | .classDeclaration c => [c.name.getD "anonymous"]
  | .enumDeclaration e => [e.name]
  | .typeAliasDeclaration a => [a.name]
  | .otherTop _ => []

/-! ### Syntactic size and a fuel-bounded resolver

To state that the resolver's recursion terminates within a bound given by the
input's syntactic structure, `extractTypeAnnotFuel` mirrors the recursion of
`extractTypeAnnot` but consumes one unit of fuel at every type-expression node
it enters, giving up (`none`) when the fuel runs out.  `TypeNode.size` counts
the type-expression nodes of a term; fuel equal to the size always suffices
(see the completeness lemmas below), which is the termination guarantee:
recursion descends only into strict syntactic subnodes, and a named reference
costs only itself plus its explicit type arguments — the referenced
declaration is never entered. -/

mutual

/-- The number of type-expression nodes in a term (a named reference counts
itself and its explicit type arguments only). -/
def TypeNode.size : TypeNode → Nat
  | .typeLiteralNode _ ms => 1 + sizeMembers ms
  | .functionTypeNode _ ps ret _ => 1 + sizeParams ps + TypeNode.size ret
  | .typeReferenceNode _ _ args => 1 + sizeOptList args
  | .tupleNode _ es => 1 + sizeList es
  | .intersectionNode _ ts => 1 + sizeList ts
  | .unionNode _ ts => 1 + sizeList ts
  | .otherNode _ => 1

def sizeMembers : List MemberNode → Nat
  | [] => 0
  | m :: ms => sizeMember m + sizeMembers ms

def sizeMember : MemberNode → Nat
  | .mk _ t _ => sizeOptNode t

def sizeParams : List ParamNode → Nat
  | [] => 0
  | p :: ps => sizeParam p + sizeParams ps

def sizeParam : ParamNode → Nat
  | .mk _ _ t => sizeOptNode t

def sizeOptNode : Option TypeNode → Nat
  | none => 0
  | some t => TypeNode.size t

def sizeOptList : Option (List TypeNode) → Nat
  | none => 0
  | some l => sizeList l

def sizeList : List TypeNode → Nat
  | [] => 0
  | t :: ts => TypeNode.size t + sizeList ts

end

mutual

/-- The resolver with an explicit recursion budget: one unit of fuel is spent
on every type-expression node entered; `none` means the budget was
exhausted. -/
def extractTypeAnnotFuel : Nat → TypeNode → Option (List JSDocTag) → Option TypeAnnot
  | 0, _, _ => none
  | fuel + 1, .typeLiteralNode lit ms, tags =>
    (extractTypeLiteralMembersFuel fuel ms tags).map (TypeAnnot.typeLiteral none lit)
  | fuel + 1, .functionTypeNode lit ps ret tps, _ =>
    match extractParametersFuel fuel ps, extractTypeAnnotFuel fuel ret none with
    | some ps2, some r => some (.functionType lit ps2 r (genericsOf tps))
    | _, _ => none
  | fuel + 1, .typeReferenceNode a n args, _ =>
    match args with
    | none =>
      some (.typeReference (match a with | some x => x | none => n) none)
    | some l =>
      (extractTypeAnnotListFuel fuel l).map (fun l2 =>
        .typeReference (match a with | some x => x | none => n) (some l2))
  | fuel + 1, .tupleNode lit es, _ =>
    (extractTypeAnnotListFuel fuel es).map (TypeAnnot.tuple lit)
  | fuel + 1, .intersectionNode lit ts, _ =>
    (extractTypeAnnotListFuel fuel ts).map (TypeAnnot.intersection lit)
  | fuel + 1, .unionNode lit ts, _ =>
    (extractTypeAnnotListFuel fuel ts).map (TypeAnnot.union lit)
  | _ + 1, .otherNode lit, _ => some (.primitiveType lit)

def extractTypeLiteralMembersFuel :
    Nat → List MemberNode → Option (List JSDocTag) → Option (List TypeLiteralMember)
  | _, [], _ => some []
  | fuel, m :: rest, tags =>
    match extractTypeLiteralMemberFuel fuel m (filterTagsFor tags m),
        extractTypeLiteralMembersFuel fuel rest tags with
    | some x, some xs => some (x :: xs)
    | _, _ => none

def extractTypeLiteralMemberFuel :
    Nat → MemberNode → Option (List JSDocTag) → Option TypeLiteralMember
  | fuel, .mk nameOpt typeNodeOpt jsdocSrc, tags =>
    match typeNodeOpt with
    | some tn =>
      (extractTypeAnnotFuel fuel tn none).map (fun t =>
        .mk (nameOpt.getD "") (some t) (mergeJsDoc (extractJsDoc jsdocSrc) tags))
    | none => some (.mk (nameOpt.getD "") none (mergeJsDoc (extractJsDoc jsdocSrc) tags))

def extractParametersFuel : Nat → List ParamNode → Option (List Parameter)
  | _, [] => some []
  | fuel, p :: rest =>
    match extractParameterFuel fuel p, extractParametersFuel fuel rest with
    | some x, some xs => some (x :: xs)
    | _, _ => none

def extractParameterFuel : Nat → ParamNode → Option Parameter
  | fuel, .mk nm jd t =>
    match t with
    | some tn =>
      (extractTypeAnnotFuel fuel tn (some [])).map (fun ta => .mk nm (extractJsDoc jd) (some ta))
    | none => some (.mk nm (extractJsDoc jd) none)

def extractTypeAnnotListFuel : Nat → List TypeNode → Option (List TypeAnnot)
  | _, [] => some []
  | fuel, t :: ts =>
    match extractTypeAnnotFuel fuel t none, extractTypeAnnotListFuel fuel ts with
    | some x, some xs => some (x :: xs)
    | _, _ => none

end

/-! ### Concrete fixtures used by the witnesses and counterexamples -/

/-- A node with no documentation at all. -/
def noJsDoc : JSDocSource := { firstComment := none, tags := [] }

/-- A node whose documentation is the single free-text line `hello`. -/
def helloDocSource : JSDocSource := { firstComment := some (.str "hello"), tags := [] }

/-- The raw `@property {string} id - …` tag of the spec's merge test (the
comment text is exactly what `ts` yields for it). -/
def propertyIdTag : RawTag :=
  { tagName := "property"
    comment := some (.str "\x7bstring\x7d id - Ensures string types are handled correctly.")
    name := none
    typeText := none }

/-- A `@property` tag whose comment does not match the expected pattern. -/
def propertyTagMalformed : RawTag :=
  { tagName := "property"
    comment := some (.str "no pattern here")
    name := none
    typeText := none }

/-- The `id: string` member (no inline documentation) of the spec's merge
test. -/
def idMemberNode : MemberNode := .mk (some "id") (some (.otherNode "string")) noJsDoc

/-- The `tags` array extracted from a declaration documented only by
`propertyIdTag`, as handed to the Type-Annotation Resolver. -/
def statementTags : Option (List JSDocTag) :=
  (extractJsDoc { firstComment := none, tags := [propertyIdTag] }).bind JSDocInfo.tags

/-- An enum member written without initializer. -/
def enumMemberNoInit : EnumMemberNode := { name := "A", jsdoc := noJsDoc, initializer := none }

/-- An enum member whose initializer's checker type is the literal 0. -/
def enumMemberInitZero : EnumMemberNode :=
  { name := "A", jsdoc := noJsDoc, initializer := some (some (.num 0)) }

/-- A small tuple type node mentioning an alias reference. -/
def tupleFixture : TypeNode :=
  .tupleNode "[string, Alias]"
    [.otherNode "string", .typeReferenceNode (some "Alias") "Alias" none]

/-- Every type-expression node has positive size. -/
theorem TypeNode.one_le_size (t : TypeNode) : 1 ≤ TypeNode.size t := by
  cases t <;> simp only [TypeNode.size] <;> omega

/-- Member completeness, assuming node completeness at the same fuel. -/
theorem extractTypeLiteralMemberFuel_complete (n : Nat)
    (hnode : ∀ t tags, TypeNode.size t ≤ n →
      extractTypeAnnotFuel n t tags = some (extractTypeAnnot t tags))
    (m : MemberNode) (tags : Option (List JSDocTag)) (hm : sizeMember m ≤ n) :
    extractTypeLiteralMemberFuel n m tags = some (extractTypeLiteralMember m tags) := by
  match m with
  | .mk nameOpt typeNodeOpt jsdocSrc =>
    match typeNodeOpt with
    | none => simp [extractTypeLiteralMemberFuel, extractTypeLiteralMember]
    | some tn =>
      have h1 : TypeNode.size tn ≤ n := by
        simpa [sizeMember, sizeOptNode] using hm
      simp [extractTypeLiteralMemberFuel, extractTypeLiteralMember, hnode tn none h1]

/-- Member-list completeness, assuming node completeness at the same fuel. -/
theorem extractTypeLiteralMembersFuel_complete (n : Nat)
    (hnode : ∀ t tags, TypeNode.size t ≤ n →
      extractTypeAnnotFuel n t tags = some (extractTypeAnnot t tags)) :
    ∀ (ms : List MemberNode) (tags : Option (List JSDocTag)), sizeMembers ms ≤ n →
      extractTypeLiteralMembersFuel n ms tags = some (extractTypeLiteralMembers ms tags) := by
  intro ms
  induction ms with
  | nil => intro tags _; simp [extractTypeLiteralMembersFuel, extractTypeLiteralMembers]
  | cons m rest ih =>
    intro tags h
    simp only [sizeMembers] at h
    have hm : sizeMember m ≤ n := by omega
    have hrest : sizeMembers rest ≤ n := by omega
    simp [extractTypeLiteralMembersFuel, extractTypeLiteralMembers,
      extractTypeLiteralMemberFuel_complete n hnode m _ hm, ih _ hrest]

/-- Parameter completeness, assuming node completeness at the same fuel. -/
theorem extractParameterFuel_complete (n : Nat)
    (hnode : ∀ t tags, TypeNode.size t ≤ n →
      extractTypeAnnotFuel n t tags = some (extractTypeAnnot t tags))
    (p : ParamNode) (hp : sizeParam p ≤ n) :
    extractParameterFuel n p = some (extractParameter p) := by
  match p with
  | .mk nm jd t =>
    match t with
    | none => simp [extractParameterFuel, extractParameter]
    | some tn =>
      have h1 : TypeNode.size tn ≤ n := by
        simpa [sizeParam, sizeOptNode] using hp
      simp [extractParameterFuel, extractParameter, hnode tn (some []) h1]

/-- Parameter-list completeness, assuming node completeness at the same
fuel. -/
theorem extractParametersFuel_complete (n : Nat)
    (hnode : ∀ t tags, TypeNode.size t ≤ n →
      extractTypeAnnotFuel n t tags = some (extractTypeAnnot t tags)) :
    ∀ (ps : List ParamNode), sizeParams ps ≤ n →
      extractParametersFuel n ps = some (extractParameters ps) := by
  intro ps
  induction ps with
  | nil => intro _; simp [extractParametersFuel, extractParameters]
  | cons p rest ih =>
    intro h
    simp only [sizeParams] at h
    have hp : sizeParam p ≤ n := by omega
    have hrest : sizeParams rest ≤ n := by omega
    simp [extractParametersFuel, extractParameters,
      extractParameterFuel_complete n hnode p hp, ih hrest]

/-- Constituent-list completeness, assuming node completeness at the same
fuel. -/
theorem extractTypeAnnotListFuel_complete (n : Nat)
    (hnode : ∀ t tags, TypeNode.size t ≤ n →
      extractTypeAnnotFuel n t tags = some (extractTypeAnnot t tags)) :
    ∀ (l : List TypeNode), sizeList l ≤ n →
      extractTypeAnnotListFuel n l = some (extractTypeAnnotList l) := by
  intro l
  induction l with
  | nil => intro _; simp [extractTypeAnnotListFuel, extractTypeAnnotList]
  | cons t rest ih =>
    intro h
    simp only [sizeList] at h
    have ht : TypeNode.size t ≤ n := by omega
    have hrest : sizeList rest ≤ n := by omega
    simp [extractTypeAnnotListFuel, extractTypeAnnotList, hnode t none ht, ih hrest]

/-- Fuel equal to the syntactic size always suffices: the budgeted resolver
completes and agrees with the total one. -/
theorem extractTypeAnnotFuel_complete :
    ∀ (fuel : Nat) (t : TypeNode) (tags : Option (List JSDocTag)),
      TypeNode.size t ≤ fuel →
      extractTypeAnnotFuel fuel t tags = some (extractTypeAnnot t tags) := by
  intro fuel
  induction fuel with
  | zero =>
    intro t tags h
    exact absurd h (by have := TypeNode.one_le_size t; omega)
  | succ n ih =>
    intro t tags h
    match t with
    | .otherNode lit => simp [extractTypeAnnotFuel, extractTypeAnnot]
    | .typeLiteralNode lit ms =>
      have hms : sizeMembers ms ≤ n := by simp only [TypeNode.size] at h; omega
      simp [extractTypeAnnotFuel, extractTypeAnnot,
        extractTypeLiteralMembersFuel_complete n ih ms tags hms]
    | .functionTypeNode lit ps ret tps =>
      have hps : sizeParams ps ≤ n := by simp only [TypeNode.size] at h; omega
      have hret : TypeNode.size ret ≤ n := by simp only [TypeNode.size] at h; omega
      simp [extractTypeAnnotFuel, extractTypeAnnot,
        extractParametersFuel_complete n ih ps hps, ih ret none hret]
    | .typeReferenceNode a nm args =>
      match args with
      | none => simp [extractTypeAnnotFuel, extractTypeAnnot, extractTypeArgs]
      | some l =>
        have hl : sizeList l ≤ n := by
          simp only [TypeNode.size, sizeOptList] at h; omega
        simp [extractTypeAnnotFuel, extractTypeAnnot, extractTypeArgs,
          extractTypeAnnotListFuel_complete n ih l hl]
    | .tupleNode lit es =>
      have hl : sizeList es ≤ n := by simp only [TypeNode.size] at h; omega
      simp [extractTypeAnnotFuel, extractTypeAnnot,
        extractTypeAnnotListFuel_complete n ih es hl]
    | .intersectionNode lit ts =>
      have hl : sizeList ts ≤ n := by simp only [TypeNode.size] at h; omega
      simp [extractTypeAnnotFuel, extractTypeAnnot,
        extractTypeAnnotListFuel_complete n ih ts hl]
    | .unionNode lit ts =>
      have hl : sizeList ts ≤ n := by simp only [TypeNode.size] at h; omega
      simp [extractTypeAnnotFuel, extractTypeAnnot,
        extractTypeAnnotListFuel_complete n ih ts hl]

/-! ### Shared helper lemmas -/

/-- Constituent resolution is an elementwise map. -/
theorem extractTypeAnnotList_eq_map (l : List TypeNode) :
    extractTypeAnnotList l = l.map (fun t => extractTypeAnnot t none) := by
  induction l with
  | nil => simp [extractTypeAnnotList]
  | cons t ts ih => simp [extractTypeAnnotList, ih]

/-- Member extraction keeps one output member per source member. -/
theorem extractTypeLiteralMembers_length (ms : List MemberNode)
    (tags : Option (List JSDocTag)) :
    (extractTypeLiteralMembers ms tags).length = ms.length := by
  induction ms with
  | nil => simp [extractTypeLiteralMembers]
  | cons m rest ih => simp [extractTypeLiteralMembers, ih]

/-- Member extraction keeps source member names (an absent name becoming the
empty string) in source order. -/
theorem extractTypeLiteralMembers_names (ms : List MemberNode)
    (tags : Option (List JSDocTag)) :
    (extractTypeLiteralMembers ms tags).map TypeLiteralMember.name
      = ms.map (fun m => (MemberNode.name m).getD "") := by
  induction ms with
  | nil => simp [extractTypeLiteralMembers]
  | cons m rest ih =>
    cases m with
    | mk nameOpt typeNodeOpt jsdocSrc =>
      simp [extractTypeLiteralMembers, extractTypeLiteralMember, TypeLiteralMember.name,
        MemberNode.name, ih]

/-- The guarded tag-comment harvest of `mergeJsDoc` is a plain `filterMap`
(the guard only skips a map over the empty list). -/
theorem filterMapIf (ts : List JSDocTag) (f : JSDocTag → Option String) :
    (if ts.length > 0 then ts.filterMap f else []) = ts.filterMap f := by
  cases ts <;> simp

/-- Removing a first occurrence that sits at the very front drops exactly the
pattern's length. -/
theorem removeFirstSub_of_isPrefixOf (pat s : List Char) (h : pat.isPrefixOf s) :
    removeFirstSub pat s = s.drop pat.length := by
  cases s with
  | nil => simp [removeFirstSub]
  | cons c cs => simp [removeFirstSub, h]

/-- Each extractor emits the source-declared names, in order. -/
theorem extractNode_names (n : TopNode) :
    (extractNode n).map TypeElement.name = TopNode.declaredNames n := by
  cases n with
  | variableStatement s =>
    simp [extractNode, TopNode.declaredNames, extractVariables, TypeElement.name,
      List.map_map, Function.comp]
  | functionDeclaration f =>
    simp [extractNode, TopNode.declaredNames, extractFunction, TypeElement.name]
  | classDeclaration c =>
    simp [extractNode, TopNode.declaredNames, extractClass, TypeElement.name]
  | enumDeclaration e =>
    simp [extractNode, TopNode.declaredNames, extractEnum, TypeElement.name]
  | typeAliasDeclaration a =>
    simp [extractNode, TopNode.declaredNames, extractTypeAlias, TypeElement.name]
  | otherTop k =>
    simp [extractNode, TopNode.declaredNames]

/-! ### Claims -/

/-- C1 counterexample: for the enum member `A` written with no explicit
initializer, the extracted member's `value` is not its ordinal position 0 and
its `typeAnnotation.literal` is not `"number"`. -/
theorem c1_enum_ordinal_counterexample :
    ¬ ((extractEnumMember enumMemberNoInit).value = some (.num 0)
      ∧ (extractEnumMember enumMemberNoInit).typeAnnot = .primitiveType "number") := by
  intro h
  have h1 := h.1
  simp [extractEnumMember, enumMemberNoInit] at h1

/-- C1 (amended): an enum member without explicit initializer — or whose
initializer's checker type carries no literal value — gets an absent `value`
and the primitive annotation `"undefined"` (the `typeof` of the absent
value); a member whose initializer resolves to a number or string literal
gets that constant as `value` and the matching runtime category as the
annotation. -/
theorem c1_enum_member_value (m : EnumMemberNode) :
    ((m.initializer = none ∨ m.initializer = some none) →
      (extractEnumMember m).value = none
        ∧ (extractEnumMember m).typeAnnot = .primitiveType "undefined")
    ∧ (∀ n : Int, m.initializer = some (some (.num n)) →
      (extractEnumMember m).value = some (.num n)
        ∧ (extractEnumMember m).typeAnnot = .primitiveType "number")
    ∧ (∀ s : String, m.initializer = some (some (.str s)) →
      (extractEnumMember m).value = some (.str s)
        ∧ (extractEnumMember m).typeAnnot = .primitiveType "string") := by
  refine ⟨?_, ?_, ?_⟩
  · rintro (h | h) <;> simp [extractEnumMember, h, typeofEnumValue]
  · intro n h
    simp [extractEnumMember, h, typeofEnumValue]
  · intro s h
    simp [extractEnumMember, h, typeofEnumValue]

/-- C1 witness: the amended statement evaluated on a member with no
initializer and on a member whose initializer resolves to the literal 0. -/
theorem c1_enum_member_value_witness :
    ((extractEnumMember enumMemberNoInit).value = none
      ∧ (extractEnumMember enumMemberNoInit).typeAnnot = .primitiveType "undefined")
    ∧ ((extractEnumMember enumMemberInitZero).value = some (.num 0)
      ∧ (extractEnumMember enumMemberInitZero).typeAnnot = .primitiveType "number") := by
  constructor
  · exact (c1_enum_member_value enumMemberNoInit).1 (Or.inl rfl)
  · exact (c1_enum_member_value enumMemberInitZero).2.1 0 rfl

/-- C2: the merged documentation of a type-literal member lists the
descriptions harvested from the handed parent-level tags strictly before the
inline description; the merged `tags` field is exactly the member's inline
`tags` (so tags are preserved verbatim and no property-sourced tag becomes a
`tags` entry); and on the spec's concrete pair — one
`@property {string} id - Ensures string types are handled correctly.` tag and
an undocumented member `id: string` — the member carries exactly the tag's
description. -/
theorem c2_property_merge (inlined : Option JSDocInfo) (ptags : List JSDocTag) :
    (((mergeJsDoc inlined (some ptags)).bind JSDocInfo.description).getD []
        = ptags.filterMap (fun t => extractComment (t.comment.map CommentBody.str))
          ++ ((inlined.bind JSDocInfo.description).getD []))
    ∧ ((mergeJsDoc inlined (some ptags)).bind JSDocInfo.tags = inlined.bind JSDocInfo.tags)
    ∧ ((extractTypeLiteralMember idMemberNode (filterTagsFor statementTags idMemberNode)).jsdoc
        = some { description := some ["Ensures string types are handled correctly."],
                 tags := none }) := by
  refine ⟨?_, ?_, by decide⟩
  · simp only [mergeJsDoc, filterMapIf]
    split
    next h =>
      rw [Bool.and_eq_true] at h
      rw [List.isEmpty_iff.mp h.2]
      simp
    next h => split <;> simp_all
  · simp only [mergeJsDoc, filterMapIf]
    split
    next h =>
      rw [Bool.and_eq_true] at h
      simp [Option.isNone_iff_eq_none.mp h.1]
    next h => simp

/-- C3: a named-reference type node always yields a `typeReference` — a name
plus recursively resolved explicit type arguments, never an inlined expansion
of the referenced structure — and the name is the alias symbol's declared
name when the checker reports one, else the written type name. -/
theorem c3_type_reference (aliasName : Option String) (refName : String)
    (args : Option (List TypeNode)) (tags : Option (List JSDocTag)) :
    extractTypeAnnot (.typeReferenceNode aliasName refName args) tags
      = .typeReference (aliasName.getD refName)
          (args.map (fun l => l.map (fun t => extractTypeAnnot t none))) := by
  cases aliasName <;> cases args <;>
    simp [extractTypeAnnot, extractTypeArgs, extractTypeAnnotList_eq_map]

/-- C4: for a `@property` tag, the detail extractor returns the three
structured fields (`literal`, `name`, whitespace-trimmed `comment`) exactly
when the tag's extracted comment matches the `{type} name - description`
pattern; a non-matching or absent comment contributes none of the three
fields, and the tag still keeps its `tagName` in the emitted tag entry. -/
theorem c4_property_tag_detail (tag : RawTag) (hprop : tag.tagName = "property") :
    (∀ s lit nm d, extractComment tag.comment = some s →
        matchPropertyPattern s = some (lit, nm, d) →
        extractJsDocTagDetail tag
          = { comment := some (jsTrim d), name := some nm, literal := some lit })
    ∧ (∀ s, extractComment tag.comment = some s → matchPropertyPattern s = none →
        extractJsDocTagDetail tag = { comment := none, name := none, literal := none })
    ∧ (extractComment tag.comment = none →
        extractJsDocTagDetail tag = { comment := none, name := none, literal := none })
    ∧ (jsDocTagOf tag).tagName = tag.tagName := by
  refine ⟨?_, ?_, ?_, ?_⟩
  · intro s lit nm d hs hm
    simp [extractJsDocTagDetail, hprop, extractJsDocTagDetailProperty, hs, hm]
  · intro s hs hm
    simp [extractJsDocTagDetail, hprop, extractJsDocTagDetailProperty, hs, hm]
  · intro hs
    simp [extractJsDocTagDetail, hprop, extractJsDocTagDetailProperty, hs]
  · simp [jsDocTagOf]

/-- C4 witness: the detail extractor evaluated on a well-formed and on a
malformed `@property` tag. -/
theorem c4_property_tag_detail_witness :
    extractJsDocTagDetail propertyIdTag
      = { comment := some "Ensures string types are handled correctly.",
          name := some "id", literal := some "string" }
    ∧ extractJsDocTagDetail propertyTagMalformed
      = { comment := none, name := none, literal := none } := by
  constructor
  · exact (c4_property_tag_detail propertyIdTag rfl).1
      "\x7bstring\x7d id - Ensures string types are handled correctly."
      "string" "id" "Ensures string types are handled correctly." (by decide) (by decide)
  · exact (c4_property_tag_detail propertyTagMalformed rfl).2.1
      "no pattern here" (by decide) (by decide)

/-- C5: the emitted element sequence carries the source's top-level declared
names in declaration order; within a type literal the extracted members carry
the source member names in source order; and tuple, intersection and union
constituents are resolved elementwise in written order. -/
theorem c5_order_preservation (sf : SourceFileNode) :
    (((parseDeclarationFile (some sf)).elements).map TypeElement.name
        = sf.topNodes.flatMap TopNode.declaredNames)
    ∧ (∀ lit ms tags,
        ((extractTypeAnnot (.typeLiteralNode lit ms) tags).membersOf).map TypeLiteralMember.name
          = ms.map (fun m => (MemberNode.name m).getD ""))
    ∧ (∀ lit ts tags, (extractTypeAnnot (.tupleNode lit ts) tags).typesOf
        = ts.map (fun t => extractTypeAnnot t none))
    ∧ (∀ lit ts tags, (extractTypeAnnot (.intersectionNode lit ts) tags).typesOf
        = ts.map (fun t => extractTypeAnnot t none))
    ∧ (∀ lit ts tags, (extractTypeAnnot (.unionNode lit ts) tags).typesOf
        = ts.map (fun t => extractTypeAnnot t none)) := by
  refine ⟨?_, ?_, ?_, ?_, ?_⟩
  · obtain ⟨ns⟩ := sf
    induction ns with
    | nil => simp [parseDeclarationFile]
    | cons n rest ih =>
      simp only [parseDeclarationFile] at ih ⊢
      simp [List.flatMap_cons, extractNode_names, ih]
  · intro lit ms tags
    simp [extractTypeAnnot, TypeAnnot.membersOf, extractTypeLiteralMembers_names]
  · intro lit ts tags
    simp [extractTypeAnnot, TypeAnnot.typesOf, extractTypeAnnotList_eq_map]
  · intro lit ts tags
    simp [extractTypeAnnot, TypeAnnot.typesOf, extractTypeAnnotList_eq_map]
  · intro lit ts tags
    simp [extractTypeAnnot, TypeAnnot.typesOf, extractTypeAnnotList_eq_map]

/-- C6: the Comment Normalizer yields an absent record exactly when the node
has no free-text description content and no tags; when it yields a record,
that record is never an empty-but-present placeholder (some field is
populated, and a populated field is never an empty sequence). -/
theorem c6_jsdoc_absent_iff (node : JSDocSource) :
    (extractJsDoc node = none ↔
      ((extractComment node.firstComment = none ∨ extractComment node.firstComment = some "")
        ∧ node.tags = []))
    ∧ (∀ info, extractJsDoc node = some info →
        (info.description ≠ none ∨ info.tags ≠ none)
        ∧ info.description ≠ some []
        ∧ info.tags ≠ some []) := by
  obtain ⟨fc, tags⟩ := node
  constructor
  · cases hc : extractComment fc with
    | none => cases tags <;> simp [extractJsDoc, hc]
    | some c =>
      by_cases hce : c = ""
      · subst hce
        cases tags <;> simp [extractJsDoc, hc]
      · cases tags <;> simp [extractJsDoc, hc, hce]
  · intro info h
    cases hc : extractComment fc with
    | none =>
      cases tags with
      | nil => simp [extractJsDoc, hc] at h
      | cons t ts =>
        simp [extractJsDoc, hc] at h
        subst h
        simp
    | some c =>
      by_cases hce : c = ""
      · subst hce
        cases tags with
        | nil => simp [extractJsDoc, hc] at h
        | cons t ts =>
          simp [extractJsDoc, hc] at h
          subst h
          simp
      · cases tags with
        | nil =>
          simp [extractJsDoc, hc, hce] at h
          subst h
          simp
        | cons t ts =>
          simp [extractJsDoc, hc, hce] at h
          subst h
          simp

/-- C6 witness: a documented node yields a populated record with a non-empty
description, and an undocumented node yields absence. -/
theorem c6_jsdoc_absent_iff_witness :
    (({ description := some ["hello"], tags := none } : JSDocInfo).description ≠ some []
      ∧ ({ description := some ["hello"], tags := none } : JSDocInfo).description ≠ none)
    ∧ extractJsDoc noJsDoc = none := by
  constructor
  · refine ⟨?_, ?_⟩
    · exact (((c6_jsdoc_absent_iff helloDocSource).2
        { description := some ["hello"], tags := none } (by decide))).2.1
    · intro hcontra
      rcases (((c6_jsdoc_absent_iff helloDocSource).2
        { description := some ["hello"], tags := none } (by decide))).1 with h | h
      · exact h hcontra
      · exact h rfl
  · exact (c6_jsdoc_absent_iff noJsDoc).1.mpr ⟨Or.inl rfl, rfl⟩

/-- C7: resolving one type-expression node always terminates, with a
recursion budget bounded by the node's syntactic size — in particular a named
reference (even to a self- or mutually-referential alias) costs only itself
plus its explicit type arguments, because it is emitted as a name-only leaf
rather than expanded. -/
theorem c7_resolver_terminates (t : TypeNode) (tags : Option (List JSDocTag)) (fuel : Nat)
    (h : TypeNode.size t ≤ fuel) :
    extractTypeAnnotFuel fuel t tags = some (extractTypeAnnot t tags) :=
  extractTypeAnnotFuel_complete fuel t tags h

/-- C7 witness: the budgeted resolver evaluated on a small tuple node
containing an alias reference. -/
theorem c7_resolver_terminates_witness :
    TypeNode.size tupleFixture ≤ 4
      ∧ extractTypeAnnotFuel 4 tupleFixture none = some (extractTypeAnnot tupleFixture none) :=
  ⟨by decide, c7_resolver_terminates tupleFixture none 4 (by decide)⟩

/-- C8: an unresolvable input path is reported and yields the empty element
sequence (never an exception past the driver's boundary); on a loadable file
a top-level construct outside the five known declaration categories
contributes zero elements, and a loadable file never trips the failure
report. -/
theorem c8_driver_failure_path :
    ((parseDeclarationFile none).errorReported = true
      ∧ (parseDeclarationFile none).elements = [])
    ∧ (∀ k : Nat, extractNode (.otherTop k) = [])
    ∧ (∀ sf : SourceFileNode, (parseDeclarationFile (some sf)).errorReported = false) :=
  ⟨⟨rfl, rfl⟩, fun _ => rfl, fun _ => rfl⟩

/-- C9: `extractComment` returns a plain string body unchanged (when it does
not begin with `"- "`), joins fragment sequences with a single space before
the same treatment, removes exactly the two leading characters when the text
begins with `"- "`, and yields absence for any other body shape. -/
theorem c9_extract_comment (s : String) (ps : List String) :
    (extractComment none = none)
    ∧ (jsStartsWith s "- " = false → extractComment (some (.str s)) = some s)
    ∧ (jsStartsWith s "- " = true →
        extractComment (some (.str s)) = some (String.mk (s.data.drop 2)))
    ∧ (extractComment (some (.parts ps))
        = extractComment (some (.str (String.intercalate " " ps)))) := by
  refine ⟨rfl, ?_, ?_, rfl⟩
  · intro h
    simp [extractComment, h]
  · intro h
    have hp : ("- " : String).data.isPrefixOf s.data = true := by
      simpa [jsStartsWith] using h
    simp [extractComment, h, jsReplaceFirst, removeFirstSub_of_isPrefixOf _ _ hp]

/-- C9 witness: the strip and no-strip cases evaluated on concrete bodies. -/
theorem c9_extract_comment_witness :
    extractComment (some (.str "- hi")) = some (String.mk ("- hi".data.drop 2))
      ∧ extractComment (some (.str "plain")) = some "plain" := by
  constructor
  · exact (c9_extract_comment "- hi" []).2.2.1 (by decide)
  · exact (c9_extract_comment "plain" []).2.1 (by decide)

/-- C10: a type-literal member with a syntactically absent name is kept in
the output (member extraction is a map, dropping nothing) and its extracted
name is the empty string, not `"anonymous"`. -/
theorem c10_anonymous_member_name (typeNodeOpt : Option TypeNode) (jd : JSDocSource)
    (tags : Option (List JSDocTag)) :
    ((extractTypeLiteralMember (.mk none typeNodeOpt jd) tags).name = ""
      ∧ (extractTypeLiteralMember (.mk none typeNodeOpt jd) tags).name ≠ "anonymous")
    ∧ (∀ lit ms tags2,
        ((extractTypeAnnot (.typeLiteralNode lit ms) tags2).membersOf).length = ms.length) := by
  constructor
  · cases typeNodeOpt <;> simp [extractTypeLiteralMember, TypeLiteralMember.name]
  · intro lit ms tags2
    simp [extractTypeAnnot, TypeAnnot.membersOf, extractTypeLiteralMembers_length]
